import Mathlib

/-!
Verification development for the Neural Reflexion Agent repository.

The repository implements a draft → research → revise loop
(`reflexion_agent.py`, `ui_app.py`) whose iteration controller scores each
revision with a heuristic quality scorer and stops on the first
non-improving score or when a hard cap on tool passes is exceeded, and a
search executor (`execute_tools.py`) that normalizes queries, invokes an
external search collaborator, deduplicates result URLs against a
session-scoped seen set and packages per-query results.

This file shallowly embeds those components: Python strings become `String`,
Python lists become `List`, Python `float` scores become `ℚ` (every score the
program produces is an exact multiple of 1/10, so the float rounding in
`round(score, 2)` never changes the two-decimal result and exact rational
arithmetic is faithful), the module-global mutable state (`_best_score`,
`SEEN_URLS`) becomes explicitly passed state, and the external search
collaborator becomes a function parameter returning `Except` (an exception
is modelled by its `repr` description).
-/

/-- Python `a or b` on two optional strings: `None` and `""` are falsy, so the
result is `b` whenever `a` is `None` or `""`. Models e.g.
`item.get("content") or item.get("snippet")` in `execute_tools.py`. -/
def pyOr (a b : Option String) : Option String :=
  match a with
  | some s => if s = "" then b else some s
  | none => b

/-- Python `x or ""` for an optional string: `None` and `""` both give `""`. -/
def pyOrEmpty (a : Option String) : String :=
  match a with
  | some s => s
  | none => ""

/-- Python `args.get("references", []) or []`: a missing value defaults to the
empty list (and an empty list stays empty). -/
def pyOrNil (a : Option (List String)) : List String :=
  match a with
  | some l => l
  | none => []

/-- Drop the characters satisfying `p` from both ends of a character list:
the semantics of Python's `str.strip(chars)`. -/
def dropEnds (p : Char → Bool) (l : List Char) : List Char :=
  ((l.dropWhile p).reverse.dropWhile p).reverse

/-- Python `str.strip(chars)` where `p` decides membership in `chars`. -/
def pyStrip (p : Char → Bool) (s : String) : String :=
  String.mk (dropEnds p s.toList)

/-- Number of maximal non-whitespace runs in a character list: the length of
Python's `s.split()` (split on whitespace, discarding empty pieces).
`inWord` records whether the previous character was part of a word, so a
word is counted exactly when a non-whitespace character follows whitespace
or the beginning of the string. -/
def countWordsAux : Bool → List Char → Nat
  | _, [] => 0
  | inWord, c :: cs =>
    if c.isWhitespace then countWordsAux false cs
    else (if inWord then 0 else 1) + countWordsAux true cs

/-- `len(s.split())` from the scorers: the word count of `s`. -/
def wordCount (s : String) : Nat :=
  countWordsAux false s.toList

/-- Number of non-overlapping matches of the regex `\\[\\d+\\]` in a
character list, scanning left to right as `re.findall` does. The scan is a
state machine: `none` means "outside a candidate match"; `some seenDigit`
means "a `[` has been read, followed so far only by digits, `seenDigit`
of them at least one". A `]` in the latter state with at least one digit
completes a match and the scan resumes after it (matches may not overlap).
On any failing character the regex engine would re-try at every later
position, but no match can start at a digit, so resuming at the failing
character itself (which is the next possible `[`) is equivalent. -/
def countCitesAux : Option Bool → List Char → Nat
  | _, [] => 0
  | none, c :: cs =>
    if c = '[' then countCitesAux (some false) cs else countCitesAux none cs
  | some seenDigit, c :: cs =>
    if c = ']' then (if seenDigit then 1 else 0) + countCitesAux none cs
    else if c.isDigit then countCitesAux (some true) cs
    else if c = '[' then countCitesAux (some false) cs
    else countCitesAux none cs

/-- `len(re.findall(r"\[\d+\]", s))` from the scorers. -/
def citeCount (s : String) : Nat :=
  countCitesAux none s.toList

/-- Python `round(x, 2)`. Every score this program rounds is an exact
multiple of 1/10 (so 100·x is an integer and every tie-breaking convention
agrees); `round` on `ℚ` is therefore a faithful model of float `round`. -/
def round2 (x : ℚ) : ℚ :=
  ((Rat.floor (x * 100 + 1 / 2) : ℤ) : ℚ) / 100

/-- Python `max(a, b)` on numbers (used as `max(0, …)` in the scorers). -/
def pyMax (a b : ℚ) : ℚ :=
  if a ≤ b then b else a

/-- Python `min(a, b)` on numbers (the saturation caps in the scorers). -/
def pyMin (a b : ℚ) : ℚ :=
  if a ≤ b then a else b

/-- Does `sub` occur at the head of `l`? (Helper for substring search.) -/
def leadMatch : List Char → List Char → Bool
  | [], _ => true
  | _ :: _, [] => false
  | a :: as, b :: bs => a == b && leadMatch as bs

/-- Does `sub` occur contiguously anywhere in `hay`? Models Python's
`sub in hay` on strings. -/
def containsSeq (sub : List Char) : List Char → Bool
  | [] => leadMatch sub []
  | b :: bs => leadMatch sub (b :: bs) || containsSeq sub bs

/-- Python `sub in s` for strings. -/
def strContains (s sub : String) : Bool :=
  containsSeq sub.toList s.toList

namespace ReflexionAgent

/-- The quality scorer of `reflexion_agent.py`, lines 32–54: 0 for an empty
answer, otherwise the rounded sum of a 250-word length-fit score, a
reference-count score, an inline-citation score and a query-coverage score.
`refs`/`queries_used` model the Python optionals with `None ↦ []` (both are
falsy, and the code only tests truthiness). This is the binding of
`evaluate_answer` in effect when the module's `app.invoke` (line 121) runs
the event loop. -/
def evaluate_answer (ans : String) (refs : List String) (queries_used : List String) : ℚ :=
  if ans = "" then 0
  else
    let s1 : ℚ := pyMax 0 (30 - (((wordCount ans : ℤ) - 250).natAbs : ℚ) / 10)
    let s2 : ℚ := if refs = [] then 0 else pyMin 20 (5 * (refs.length : ℚ))
    let s3 : ℚ := pyMin 20 ((citeCount ans : ℚ) * 4)
    let s4 : ℚ := if queries_used = [] then 0 else pyMin 30 (10 * pyMin 3 (queries_used.length : ℚ))
    round2 (s1 + s2 + s3 + s4)

/-- Does a reference string contain one of the two "authoritative" domains
tested by the second `evaluate_answer` definition? -/
def authoritativeRef (r : String) : Bool :=
  strContains r "mckinsey.com" || strContains r "mailchimp.com"

/-- The second, shadowing definition of `evaluate_answer` in
`reflexion_agent.py`, lines 141–147: it rebinds the module-level name after
the script's single `app.invoke`, starts from `score = 0.0` with the
placeholder comment `# ...existing scoring...` never filled in, subtracts 10
when all references are non-authoritative, and rounds. -/
def evaluate_answer_final (_ans : String) (refs : List String) (_queries_used : List String) : ℚ :=
  let score : ℚ := 0
  let score := if refs ≠ [] ∧ refs.any authoritativeRef = false then score - 10 else score
  round2 score

end ReflexionAgent

namespace UiApp

/-- The quality scorer of `ui_app.py`, lines 36–48 (the UI's mirror of the
agent's scorer, consulted by the UI's `event_loop`). -/
def evaluate_answer (ans : String) (refs : List String) (queries_used : List String) : ℚ :=
  if ans = "" then 0
  else
    let s1 : ℚ := pyMax 0 (30 - (((wordCount ans : ℤ) - 250).natAbs : ℚ) / 10)
    let s2 : ℚ := if refs = [] then 0 else pyMin 20 (5 * (refs.length : ℚ))
    let s3 : ℚ := pyMin 20 ((citeCount ans : ℚ) * 4)
    let s4 : ℚ := if queries_used = [] then 0 else pyMin 30 (10 * pyMin 3 (queries_used.length : ℚ))
    round2 (s1 + s2 + s3 + s4)

end UiApp

/-! ## Data model: messages, tool calls and search results -/

/-- A raw entry of a `search_queries` list: either a Python string, or any
other value together with the text `str(value)` it coerces to. -/
inductive RawQuery where
  | str (s : String)
  | other (text : String)
deriving DecidableEq

/-- `str(q)` — identity on strings, the coercion text otherwise
(`_clean_query`, `execute_tools.py` lines 14–15). -/
def coerceText : RawQuery → String
  | RawQuery.str s => s
  | RawQuery.other t => t

/-- One tool invocation carried by a model message: a name (one of the two
structured-answer kinds or something else), a call identifier, and the
argument payload fields the program reads (`answer`, `references`,
`search_queries`), each `Option` because `args.get` may find nothing. -/
structure ToolCall where
  name : String
  id : Option String
  answer : Option String
  references : Option (List String)
  search_queries : Option (List RawQuery)
deriving DecidableEq

/-- One raw result record from the search collaborator; each field is
`Option` because the code reads them with `item.get`. -/
structure SearchItem where
  title : Option String
  url : Option String
  content : Option String
  snippet : Option String
deriving DecidableEq

/-- The compact projection `{title, url, snippet}` built by
`execute_tools.py` lines 56–62. -/
structure ProjItem where
  title : Option String
  url : String
  snippet : Option String
deriving DecidableEq

/-- The value stored for one query in a ToolResult payload: either a
truncated result list or an error record `{"error": repr(e)}`. -/
inductive QEntry where
  | results (items : List ProjItem)
  | failure (descr : String)
deriving DecidableEq

/-- A conversation message: human input, a model message carrying tool
calls, or a ToolResult. A ToolResult's content is the JSON-decoded payload:
`some mapping` when `json.loads` yields a mapping (key order = insertion
order), `none` when the content does not parse as such. -/
inductive Msg where
  | human (content : String)
  | ai (tool_calls : List ToolCall)
  | tool (content : Option (List (String × QEntry))) (tool_call_id : Option String)
deriving DecidableEq

/-! ## Search executor (`execute_tools.py`) -/

namespace ExecuteTools

/-- `_clean_query` (`execute_tools.py` lines 13–17): coerce to text, then
`.strip().strip(",").strip(CHR34).strip(CHR39)` — each `strip` removes the
given characters from BOTH ends. `Char.ofNat 34` is the double-quote
character and `Char.ofNat 39` the single quote. -/
def clean_query (q : RawQuery) : String :=
  pyStrip (fun c => c == Char.ofNat 39)
    (pyStrip (fun c => c == Char.ofNat 34)
      (pyStrip (fun c => c == ',')
        (pyStrip Char.isWhitespace (coerceText q))))

/-- The cleaned URL of a raw item: `(item.get("url") or "").strip()`. -/
def itemUrl (item : SearchItem) : String :=
  pyStrip Char.isWhitespace (pyOrEmpty item.url)

/-- The compact projection of a raw item (`execute_tools.py` lines 56–62). -/
def projOf (item : SearchItem) : ProjItem :=
  { title := item.title
    url := itemUrl item
    snippet := pyOr item.content item.snippet }

/-- The result-filtering loop of `execute_tools.py` lines 50–62: walk the
collaborator's items in order, skip items whose cleaned URL is empty or
already in the seen set, and otherwise register the URL as seen and keep the
projected record. Returns the kept records (before the `[:3]` truncation)
and the updated seen set. The Python `set` is modelled as a duplicate-free
`List String` under membership. -/
def processItems : List String → List SearchItem → List ProjItem × List String
  | seen, [] => ([], seen)
  | seen, item :: rest =>
    if itemUrl item = "" ∨ itemUrl item ∈ seen then processItems seen rest
    else
      let res := processItems (itemUrl item :: seen) rest
      (projOf item :: res.1, res.2)

/-- Lookup in the insertion-ordered mapping modelling a Python dict. -/
def findVal (k : String) : List (String × QEntry) → Option QEntry
  | [] => none
  | (k2, v) :: rest => if k2 = k then some v else findVal k rest

/-- `dict[k] = v` on the insertion-ordered mapping: replace the (unique)
entry in place when the key exists, else append at the end — Python dict
assignment keeps an existing key at its original position. -/
def updAssoc : List (String × QEntry) → String → QEntry → List (String × QEntry)
  | [], k, v => [(k, v)]
  | p :: rest, k, v => if p.1 = k then (k, v) :: rest else p :: updAssoc rest k v

/-- The search collaborator: `tavily_tool.invoke({"query": q})`, which
returns a raw value (`none` models Python `None`) or raises — an exception
is modelled as `Except.error` carrying `repr(e)`. -/
abbrev Searcher := String → Except String (Option (List SearchItem))

/-- Python `args.get("search_queries", []) or []` for the raw query list. -/
def pyOrQueries (a : Option (List RawQuery)) : List RawQuery :=
  match a with
  | some l => l
  | none => []

/-- The per-query loop of `execute_tools.py` lines 43–65: clean each query,
skip the empty ones, invoke the collaborator, filter/truncate results into
the mapping, and turn a collaborator exception into an error record. -/
def runQueries (searcher : Searcher) :
    List RawQuery → List (String × QEntry) → List String → List (String × QEntry) × List String
  | [], acc, seen => (acc, seen)
  | q :: rest, acc, seen =>
    if clean_query q = "" then runQueries searcher rest acc seen
    else
      match searcher (clean_query q) with
      | Except.error e => runQueries searcher rest (updAssoc acc (clean_query q) (QEntry.failure e)) seen
      | Except.ok raw =>
        let res := processItems seen (raw.getD [])
        runQueries searcher rest (updAssoc acc (clean_query q) (QEntry.results (res.1.take 3))) res.2

/-- The per-tool-call loop of `execute_tools.py` lines 33–72: keep only the
two recognized structured-answer kinds, run their queries, and emit one
ToolResult per kept call with the JSON-encoded mapping and the call id. -/
def runCalls (searcher : Searcher) : List ToolCall → List String → List Msg × List String
  | [], seen => ([], seen)
  | tc :: rest, seen =>
    if tc.name = "AnswerQuestion" ∨ tc.name = "ReviseAnswer" then
      let qr := runQueries searcher (pyOrQueries tc.search_queries) [] seen
      let ms := runCalls searcher rest qr.2
      (Msg.tool (some qr.1) tc.id :: ms.1, ms.2)
    else runCalls searcher rest seen

/-- `execute_tools` (`execute_tools.py` lines 19–74): no output unless the
state is non-empty, ends with a model message, and that message carries tool
calls. The seen set is the explicit image of the module global `SEEN_URLS`. -/
def execute_tools (searcher : Searcher) (state : List Msg) (seen : List String) :
    List Msg × List String :=
  match state.getLast? with
  | none => ([], seen)
  | some (Msg.ai tcs) => if tcs = [] then ([], seen) else runCalls searcher tcs seen
  | some _ => ([], seen)

end ExecuteTools

/-! ## Answer/query extraction and the iteration controller
(`reflexion_agent.py` lines 56–106, `ui_app.py` lines 50–96) -/

/-- Inner scan of `extract_last_tool_answer`: walk the tool calls of one
model message in reversed order and return the payload of the first call
whose name is one of the two recognized kinds (`"ReviseAnswer"`,
`"AnswerQuestion"`): its `answer` (possibly absent) and its references
(`args.get("references", []) or []`). -/
def findAnsInCalls : List ToolCall → Option (Option String × List String)
  | [] => none
  | tc :: rest =>
    if tc.name = "ReviseAnswer" ∨ tc.name = "AnswerQuestion" then
      some (tc.answer, pyOrNil tc.references)
    else findAnsInCalls rest

/-- Outer scan of `extract_last_tool_answer` over the REVERSED history:
messages without (truthy) tool calls are skipped; the first model message
containing a recognized call yields that call's payload. -/
def lastToolAnswerRev : List Msg → Option String × List String
  | [] => (none, [])
  | Msg.ai tcs :: rest =>
    match findAnsInCalls tcs.reverse with
    | some r => r
    | none => lastToolAnswerRev rest
  | _ :: rest => lastToolAnswerRev rest

/-- `extract_last_tool_answer` (`reflexion_agent.py` lines 56–69 and its
copy `ui_app.py` lines 50–62): latest tool-produced answer and references. -/
def extract_last_tool_answer (messages : List Msg) : Option String × List String :=
  lastToolAnswerRev messages.reverse

/-- Scan of `extract_latest_queries_from_tools` over the REVERSED history:
the first ToolResult found is decoded; its key list is returned in payload
order, or `[]` when the content does not parse as a mapping. -/
def latestQueriesRev : List Msg → List String
  | [] => []
  | Msg.tool c _ :: _ =>
    match c with
    | some m => m.map Prod.fst
    | none => []
  | _ :: rest => latestQueriesRev rest

/-- `extract_latest_queries_from_tools` (`reflexion_agent.py` lines 71–80,
`ui_app.py` lines 64–72). -/
def extract_latest_queries (messages : List Msg) : List String :=
  latestQueriesRev messages.reverse

/-- `sum(isinstance(item, ToolMessage) for item in state)`. -/
def countToolMsgs (state : List Msg) : Nat :=
  state.countP (fun m => match m with | Msg.tool _ _ => true | _ => false)

/-- The controller's two outcomes: `stop` is the graph's `END`, `toTools`
routes back to the `execute_tools` node. -/
inductive Decision where
  | stop
  | toTools
deriving DecidableEq

/-- `MAX_ITERATIONS = 2` (`reflexion_agent.py` line 20; the UI default
slider value, `ui_app.py` line 139). -/
def MAX_ITERATIONS : Nat := 2

/-- `_best_score = -1.0` (`reflexion_agent.py` line 85) and
`best = {"val": -1.0}` (`ui_app.py` line 82). -/
def best_score_init : ℚ := -1

/-- `event_loop` (`reflexion_agent.py` lines 87–106; identically
`ui_app.py` lines 84–96 with the slider's `max_iterations`): the mutable
best-score holder is passed and returned explicitly. Order of checks —
hard cap on ToolResult count first; then extraction; an answer that is
`None` or `""` is falsy, so scoring is skipped and the loop continues;
otherwise stop without updating the best on `cur <= best`, else record
`cur` and continue. -/
def event_loop (max_iterations : Nat) (best : ℚ) (state : List Msg) : Decision × ℚ :=
  if countToolMsgs state > max_iterations then (Decision.stop, best)
  else
    match extract_last_tool_answer state with
    | (some a, refs) =>
      if a = "" then (Decision.toTools, best)
      else
        if ReflexionAgent.evaluate_answer a refs (extract_latest_queries state) ≤ best then
          (Decision.stop, best)
        else
          (Decision.toTools, ReflexionAgent.evaluate_answer a refs (extract_latest_queries state))
    | (none, _) => (Decision.toTools, best)

/-! ## General lemmas about the embedded arithmetic -/

/-- Batteries' `Rat.floor` is the `⌊·⌋` of the `FloorRing ℚ` instance. -/
theorem ratFloor_eq (q : ℚ) : Rat.floor q = ⌊q⌋ := rfl

/-- Rounding to two decimals preserves non-negativity. -/
theorem round2_nonneg {x : ℚ} (h : 0 ≤ x) : 0 ≤ round2 x := by
  unfold round2
  rw [ratFloor_eq]
  have h1 : (0 : ℤ) ≤ ⌊x * 100 + 1 / 2⌋ := by
    rw [Int.le_floor]
    push_cast
    linarith
  have h2 : (0 : ℚ) ≤ (⌊x * 100 + 1 / 2⌋ : ℚ) := by exact_mod_cast h1
  linarith

/-- Rounding to two decimals adds at most one two-hundredth. -/
theorem round2_le {x : ℚ} : round2 x ≤ x + 1 / 200 := by
  unfold round2
  rw [ratFloor_eq]
  have h1 : ((⌊x * 100 + 1 / 2⌋ : ℤ) : ℚ) ≤ x * 100 + 1 / 2 := Int.floor_le _
  linarith

theorem pyMin_nonneg {a b : ℚ} (ha : 0 ≤ a) (hb : 0 ≤ b) : 0 ≤ pyMin a b := by
  unfold pyMin
  split <;> assumption

theorem pyMin_le_left (a b : ℚ) : pyMin a b ≤ a := by
  unfold pyMin
  split
  · exact le_refl a
  · exact le_of_not_le (by assumption)

theorem pyMax_nonneg {a b : ℚ} (ha : 0 ≤ a) : 0 ≤ pyMax a b := by
  unfold pyMax
  split
  · exact le_trans ha (by assumption)
  · exact ha

theorem pyMax_le {a b c : ℚ} (ha : a ≤ c) (hb : b ≤ c) : pyMax a b ≤ c := by
  unfold pyMax
  split <;> assumption

/-- Every output of the documented scorer is non-negative: the four
sub-scores are each clamped at zero from below and rounding preserves the
sign. -/
theorem evaluate_answer_nonneg (a : String) (refs qs : List String) :
    0 ≤ ReflexionAgent.evaluate_answer a refs qs := by
  simp only [ReflexionAgent.evaluate_answer]
  split
  · exact le_refl 0
  · apply round2_nonneg
    have h1 : 0 ≤ pyMax 0 (30 - (((wordCount a : ℤ) - 250).natAbs : ℚ) / 10) :=
      pyMax_nonneg (le_refl 0)
    have h2 : 0 ≤ (if refs = [] then (0 : ℚ) else pyMin 20 (5 * (refs.length : ℚ))) := by
      split
      · exact le_refl 0
      · exact pyMin_nonneg (by norm_num) (by positivity)
    have h3 : 0 ≤ pyMin 20 ((citeCount a : ℚ) * 4) := pyMin_nonneg (by norm_num) (by positivity)
    have h4 : 0 ≤ (if qs = [] then (0 : ℚ) else pyMin 30 (10 * pyMin 3 (qs.length : ℚ))) := by
      split
      · exact le_refl 0
      · exact pyMin_nonneg (by norm_num)
          (mul_nonneg (by norm_num) (pyMin_nonneg (by norm_num) (by positivity)))
    linarith

/-- Every output of the documented scorer is at most 101 (the four caps sum
to 100 and rounding adds at most 1/200). -/
theorem evaluate_answer_le (a : String) (refs qs : List String) :
    ReflexionAgent.evaluate_answer a refs qs ≤ 101 := by
  simp only [ReflexionAgent.evaluate_answer]
  split
  · norm_num
  · refine le_trans round2_le ?_
    have h1 : pyMax 0 (30 - (((wordCount a : ℤ) - 250).natAbs : ℚ) / 10) ≤ 30 := by
      apply pyMax_le (by norm_num)
      have : (0 : ℚ) ≤ (((wordCount a : ℤ) - 250).natAbs : ℚ) / 10 := by positivity
      linarith
    have h2 : (if refs = [] then (0 : ℚ) else pyMin 20 (5 * (refs.length : ℚ))) ≤ 20 := by
      split
      · norm_num
      · exact le_trans (pyMin_le_left _ _) (by norm_num)
    have h3 : pyMin 20 ((citeCount a : ℚ) * 4) ≤ 20 := pyMin_le_left _ _
    have h4 : (if qs = [] then (0 : ℚ) else pyMin 30 (10 * pyMin 3 (qs.length : ℚ))) ≤ 30 := by
      split
      · norm_num
      · exact pyMin_le_left _ _
    linarith

/-! ## Branch lemmas for the iteration controller -/

/-- When the hard cap is not exceeded and the extracted answer is truthy
(present and non-empty), `event_loop` reduces to the score comparison. -/
theorem event_loop_scored (max_iterations : Nat) (best : ℚ) (state : List Msg)
    (a : String) (refs : List String)
    (hcap : countToolMsgs state ≤ max_iterations)
    (hext : extract_last_tool_answer state = (some a, refs))
    (hne : a ≠ "") :
    event_loop max_iterations best state =
      if ReflexionAgent.evaluate_answer a refs (extract_latest_queries state) ≤ best then
        (Decision.stop, best)
      else
        (Decision.toTools, ReflexionAgent.evaluate_answer a refs (extract_latest_queries state)) := by
  unfold event_loop
  rw [if_neg (by omega : ¬ countToolMsgs state > max_iterations), hext]
  simp only [if_neg hne]

/-- When the hard cap is not exceeded and the extracted answer is `None` or
the empty string, `event_loop` skips scoring and continues with the best
score unchanged. -/
theorem event_loop_unscored (max_iterations : Nat) (best : ℚ) (state : List Msg)
    (hcap : countToolMsgs state ≤ max_iterations)
    (hfalsy : (extract_last_tool_answer state).1 = some "" ∨
              (extract_last_tool_answer state).1 = none) :
    event_loop max_iterations best state = (Decision.toTools, best) := by
  unfold event_loop
  rw [if_neg (by omega : ¬ countToolMsgs state > max_iterations)]
  rcases hp : extract_last_tool_answer state with ⟨ans, refs⟩
  rw [hp] at hfalsy
  simp only at hfalsy
  rcases hfalsy with h | h <;> subst h <;> simp

/-! ## Concrete run fixtures -/

/-- A revision call carrying the answer `"hello"` with one reference. -/
def tcHello : ToolCall :=
  { name := "ReviseAnswer", id := none, answer := some "hello",
    references := some ["r1"], search_queries := none }

/-- A one-message history whose latest answer is `"hello"`. -/
def stHello : List Msg := [Msg.ai [tcHello]]

/-- A draft call carrying the answer `"hello [1]"` with one reference. -/
def tcCited : ToolCall :=
  { name := "AnswerQuestion", id := none, answer := some "hello [1]",
    references := some ["u1"], search_queries := none }

/-- A one-message history whose latest answer is `"hello [1]"`. -/
def stCited : List Msg := [Msg.ai [tcCited]]

/-- A revision call whose answer is the empty string (present but falsy). -/
def tcEmptyAns : ToolCall :=
  { name := "ReviseAnswer", id := none, answer := some "",
    references := some ["r1"], search_queries := none }

/-- A one-message history whose latest extracted answer is `""`. -/
def stEmptyAns : List Msg := [Msg.ai [tcEmptyAns]]

/-! ## Claims C1–C5: the quality scorer and the iteration controller -/

/-- Claim C1 (code_bug evidence). The claim describes the documented scorer
(`reflexion_agent.py` lines 32–54): 0 for an empty/absent answer, otherwise
the rounded sum of the four sub-scores. The module, however, REDEFINES
`evaluate_answer` at lines 141–147 with a placeholder body
(`# ...existing scoring...`), so the binding that survives module execution
contradicts the claim: on the empty answer with one non-authoritative
reference the documented scorer returns 0 as the claim requires, while the
shadowing redefinition returns −10. -/
theorem c1_scorer_shadowed_by_redefinition :
    ReflexionAgent.evaluate_answer "" ["https://example.org"] [] = 0 ∧
    ReflexionAgent.evaluate_answer_final "" ["https://example.org"] [] = -10 := by
  constructor
  · rfl
  · have ha : ["https://example.org"].any ReflexionAgent.authoritativeRef = false := by decide
    rw [ReflexionAgent.evaluate_answer_final, ha]
    norm_num [round2, ratFloor_eq]

/-- Claim C2. Whenever the controller scores a latest answer (hard cap not
exceeded, extracted answer present and non-empty): if the new score is at
most the recorded best, it stops and leaves the best unchanged; otherwise it
continues and records the new score — which is strictly larger, so the best
is non-decreasing while the loop continues, and the loop ends at the first
non-improving score. -/
theorem c2_no_improvement_stopping_rule
    (max_iterations : Nat) (best : ℚ) (state : List Msg)
    (a : String) (refs : List String)
    (hcap : countToolMsgs state ≤ max_iterations)
    (hext : extract_last_tool_answer state = (some a, refs))
    (hne : a ≠ "") :
    (ReflexionAgent.evaluate_answer a refs (extract_latest_queries state) ≤ best →
      event_loop max_iterations best state = (Decision.stop, best)) ∧
    (best < ReflexionAgent.evaluate_answer a refs (extract_latest_queries state) →
      event_loop max_iterations best state =
        (Decision.toTools, ReflexionAgent.evaluate_answer a refs (extract_latest_queries state)) ∧
      best ≤ (event_loop max_iterations best state).2) := by
  rw [event_loop_scored max_iterations best state a refs hcap hext hne]
  constructor
  · intro hle
    rw [if_pos hle]
  · intro hlt
    rw [if_neg (not_le.mpr hlt)]
    exact ⟨rfl, le_of_lt hlt⟩

/-- Witness for C2 at a concrete history: with the answer `"hello [1]"` and
one reference, a huge recorded best stops the loop unchanged, while the
initial best continues and records the fresh score. -/
theorem c2_no_improvement_stopping_rule_witness :
    countToolMsgs stCited ≤ 2 ∧
    event_loop 2 1000 stCited = (Decision.stop, 1000) ∧
    event_loop 2 best_score_init stCited =
      (Decision.toTools,
        ReflexionAgent.evaluate_answer "hello [1]" ["u1"] (extract_latest_queries stCited)) := by
  refine ⟨by decide, ?_, ?_⟩
  · exact (c2_no_improvement_stopping_rule 2 1000 stCited "hello [1]" ["u1"]
      (by decide) (by decide) (by decide)).1
      (le_trans (evaluate_answer_le _ _ _) (by decide))
  · exact ((c2_no_improvement_stopping_rule 2 best_score_init stCited "hello [1]" ["u1"]
      (by decide) (by decide) (by decide)).2
      (lt_of_lt_of_le (by decide : best_score_init < 0) (evaluate_answer_nonneg _ _ _))).1

/-- Claim C3. The hard cap is checked first and unconditionally: whatever
the recorded best and whatever score the latest answer would get, once the
ToolResult count exceeds the configured maximum the controller stops (with
the best unchanged); with `max_iterations = 0` a single ToolResult already
stops the run. Since every search/revision cycle appends a ToolResult, the
count reaches `max_iterations + 1` after at most that many cycles. -/
theorem c3_hard_cap_stops_unconditionally :
    (∀ (max_iterations : Nat) (best : ℚ) (state : List Msg),
      max_iterations < countToolMsgs state →
      event_loop max_iterations best state = (Decision.stop, best)) ∧
    (∀ (best : ℚ) (state : List Msg),
      1 ≤ countToolMsgs state →
      event_loop 0 best state = (Decision.stop, best)) := by
  have h : ∀ (max_iterations : Nat) (best : ℚ) (state : List Msg),
      max_iterations < countToolMsgs state →
      event_loop max_iterations best state = (Decision.stop, best) := by
    intro m best state hlt
    unfold event_loop
    rw [if_pos (by omega : countToolMsgs state > m)]
  exact ⟨h, fun best state h1 => h 0 best state (by omega)⟩

/-- Witness for C3: one ToolResult in the history and `max_iterations = 0`
stop the loop regardless of the recorded best. -/
theorem c3_hard_cap_stops_unconditionally_witness :
    event_loop 0 77 [Msg.tool none none] = (Decision.stop, 77) :=
  c3_hard_cap_stops_unconditionally.2 77 [Msg.tool none none] (by decide)

/-- Claim C4. The initial best (−1.0) is strictly below every attainable
score of the scorer consulted by the controller, so the first time a truthy
answer is scored the controller necessarily continues (the no-improvement
stop branch is unreachable at the first scored answer). -/
theorem c4_initial_best_below_attainable :
    (∀ (a : String) (refs qs : List String),
      best_score_init < ReflexionAgent.evaluate_answer a refs qs) ∧
    (∀ (max_iterations : Nat) (state : List Msg) (a : String) (refs : List String),
      countToolMsgs state ≤ max_iterations →
      extract_last_tool_answer state = (some a, refs) →
      a ≠ "" →
      event_loop max_iterations best_score_init state =
        (Decision.toTools,
          ReflexionAgent.evaluate_answer a refs (extract_latest_queries state))) := by
  have hlt : ∀ (a : String) (refs qs : List String),
      best_score_init < ReflexionAgent.evaluate_answer a refs qs := fun a refs qs =>
    lt_of_lt_of_le (by norm_num [best_score_init]) (evaluate_answer_nonneg a refs qs)
  refine ⟨hlt, ?_⟩
  intro m state a refs hcap hext hne
  rw [event_loop_scored m best_score_init state a refs hcap hext hne,
    if_neg (not_le.mpr (hlt a refs (extract_latest_queries state)))]

/-- Witness for C4 at a concrete one-message history. -/
theorem c4_initial_best_below_attainable_witness :
    best_score_init < ReflexionAgent.evaluate_answer "x" [] [] ∧
    event_loop 2 best_score_init stHello =
      (Decision.toTools,
        ReflexionAgent.evaluate_answer "hello" ["r1"] (extract_latest_queries stHello)) :=
  ⟨c4_initial_best_below_attainable.1 "x" [] [],
    c4_initial_best_below_attainable.2 2 stHello "hello" ["r1"] (by decide) (by decide) (by decide)⟩

/-- Claim C5. The scorer consulted by the agent's controller
(`reflexion_agent.py` lines 32–54, the binding in effect during the
module's run) and the scorer consulted by the UI's controller
(`ui_app.py` lines 36–48) agree on every input. -/
theorem c5_scorers_agree (a : String) (refs qs : List String) :
    ReflexionAgent.evaluate_answer a refs qs = UiApp.evaluate_answer a refs qs := rfl

/-! ## Lemmas about the search executor's result mapping -/

namespace ExecuteTools

theorem findVal_updAssoc_self (m : List (String × QEntry)) (k : String) (v : QEntry) :
    findVal k (updAssoc m k v) = some v := by
  induction m with
  | nil => simp [updAssoc, findVal]
  | cons p rest ih =>
    by_cases hp : p.1 = k
    · simp [updAssoc, findVal, hp]
    · simp [updAssoc, findVal, hp, ih]

theorem findVal_updAssoc_ne (m : List (String × QEntry)) {k k2 : String} (v : QEntry)
    (h : k2 ≠ k) : findVal k (updAssoc m k2 v) = findVal k m := by
  induction m with
  | nil => simp [updAssoc, findVal, h]
  | cons p rest ih =>
    unfold updAssoc
    by_cases hp : p.1 = k2
    · rw [if_pos hp]
      unfold findVal
      rw [if_neg h, if_neg (fun hc : p.1 = k => h (hp.symm.trans hc))]
    · rw [if_neg hp]
      unfold findVal
      by_cases hk : p.1 = k
      · rw [if_pos hk, if_pos hk]
      · rw [if_neg hk, if_neg hk]
        exact ih

theorem findVal_updAssoc_isSome (m : List (String × QEntry)) (k k2 : String) (v : QEntry)
    (h : (findVal k m).isSome = true) :
    (findVal k (updAssoc m k2 v)).isSome = true := by
  by_cases hk : k2 = k
  · subst hk
    rw [findVal_updAssoc_self]
    rfl
  · rw [findVal_updAssoc_ne m v hk]
    exact h

/-- A key present in the accumulated mapping stays present through the rest
of the query batch. -/
theorem runQueries_preserves_key (searcher : Searcher) (qs : List RawQuery)
    (acc : List (String × QEntry)) (seen : List String) (k : String)
    (h : (findVal k acc).isSome = true) :
    (findVal k (runQueries searcher qs acc seen).1).isSome = true := by
  induction qs generalizing acc seen with
  | nil => simpa [runQueries] using h
  | cons q rest ih =>
    simp only [runQueries]
    by_cases hc : clean_query q = ""
    · simp only [hc, if_true]
      exact ih acc seen h
    · simp only [hc, if_false]
      rcases hs : searcher (clean_query q) with e | raw
      · exact ih _ seen (findVal_updAssoc_isSome _ _ _ _ h)
      · exact ih _ _ (findVal_updAssoc_isSome _ _ _ _ h)

/-- Every query of the batch whose normalization is non-empty ends up with
an entry in the output mapping — a failing query never removes the entries
of the remaining ones. -/
theorem runQueries_key_present (searcher : Searcher) (qs : List RawQuery)
    (acc : List (String × QEntry)) (seen : List String) (q : RawQuery)
    (hq : q ∈ qs) (hne : clean_query q ≠ "") :
    (findVal (clean_query q) (runQueries searcher qs acc seen).1).isSome = true := by
  induction qs generalizing acc seen with
  | nil => cases hq
  | cons p rest ih =>
    simp only [runQueries]
    rcases List.mem_cons.mp hq with rfl | hmem
    · simp only [hne, if_false]
      rcases hs : searcher (clean_query q) with e | raw
      · exact runQueries_preserves_key searcher rest _ seen _
          (by rw [findVal_updAssoc_self]; rfl)
      · exact runQueries_preserves_key searcher rest _ _ _
          (by rw [findVal_updAssoc_self]; rfl)
    · by_cases hc : clean_query p = ""
      · simp only [hc, if_true]
        exact ih _ _ hmem
      · simp only [hc, if_false]
        rcases hs : searcher (clean_query p) with e | raw
        · exact ih _ _ hmem
        · exact ih _ _ hmem

/-- If the collaborator fails on a (cleaned) query text `k` with description
`e`, then processing any batch either leaves the mapping at `k` unchanged or
sets it to the error record for `e`. -/
theorem runQueries_err_stable (searcher : Searcher) {k : String} {e : String}
    (hk : searcher k = Except.error e) (qs : List RawQuery)
    (acc : List (String × QEntry)) (seen : List String) :
    findVal k (runQueries searcher qs acc seen).1 = findVal k acc ∨
    findVal k (runQueries searcher qs acc seen).1 = some (QEntry.failure e) := by
  induction qs generalizing acc seen with
  | nil => left; simp [runQueries]
  | cons p rest ih =>
    simp only [runQueries]
    by_cases hc : clean_query p = ""
    · simp only [hc, if_true]
      exact ih acc seen
    · simp only [hc, if_false]
      by_cases hcq : clean_query p = k
      · rw [hcq, hk]
        rcases ih (updAssoc acc k (QEntry.failure e)) seen with h | h
        · right
          rw [h, findVal_updAssoc_self]
        · right
          exact h
      · rcases hs : searcher (clean_query p) with e2 | raw
        · rcases ih (updAssoc acc (clean_query p) (QEntry.failure e2)) seen with h | h
          · left
            rw [h, findVal_updAssoc_ne _ _ hcq]
          · right
            exact h
        · rcases ih (updAssoc acc (clean_query p)
            (QEntry.results ((processItems seen (raw.getD [])).1.take 3)))
            (processItems seen (raw.getD [])).2 with h | h
          · left
            rw [h, findVal_updAssoc_ne _ _ hcq]
          · right
            exact h

/-! ## Lemmas about result filtering and the seen-URL set -/

theorem processItems_seen_mono (raw : List SearchItem) (seen : List String) (u : String)
    (h : u ∈ seen) : u ∈ (processItems seen raw).2 := by
  induction raw generalizing seen with
  | nil => simpa [processItems] using h
  | cons item rest ih =>
    simp only [processItems]
    split
    · exact ih seen h
    · exact ih (itemUrl item :: seen) (List.mem_cons_of_mem _ h)

theorem processItems_kept_fresh (raw : List SearchItem) (seen : List String) :
    ∀ r ∈ (processItems seen raw).1, r.url ∉ seen ∧ r.url ≠ "" := by
  induction raw generalizing seen with
  | nil => simp [processItems]
  | cons item rest ih =>
    simp only [processItems]
    split
    · exact ih seen
    · rename_i hif
      push_neg at hif
      intro r hr
      rcases List.mem_cons.mp hr with rfl | hmem
      · exact ⟨by simpa [projOf] using hif.2, by simpa [projOf] using hif.1⟩
      · have h2 := ih (itemUrl item :: seen) r hmem
        exact ⟨fun hc => h2.1 (List.mem_cons_of_mem _ hc), h2.2⟩

theorem processItems_sublist (raw : List SearchItem) (seen : List String) :
    (processItems seen raw).1.Sublist (raw.map projOf) := by
  induction raw generalizing seen with
  | nil => simp [processItems]
  | cons item rest ih =>
    simp only [processItems, List.map]
    split
    · exact List.Sublist.cons _ (ih seen)
    · exact List.Sublist.cons₂ _ (ih (itemUrl item :: seen))

theorem processItems_url_registered (raw : List SearchItem) (seen : List String) :
    ∀ r ∈ (processItems seen raw).1, r.url ∈ (processItems seen raw).2 := by
  induction raw generalizing seen with
  | nil => simp [processItems]
  | cons item rest ih =>
    simp only [processItems]
    split
    · exact ih seen
    · intro r hr
      rcases List.mem_cons.mp hr with rfl | hmem
      · exact processItems_seen_mono rest (itemUrl item :: seen) _
          (by simp [projOf])
      · exact ih (itemUrl item :: seen) r hmem

theorem processItems_provenance (raw : List SearchItem) (seen : List String) :
    ∀ u ∈ (processItems seen raw).2,
      u ∈ seen ∨ ∃ item, item ∈ raw ∧ itemUrl item = u ∧ u ≠ "" := by
  induction raw generalizing seen with
  | nil => intro u hu; left; simpa [processItems] using hu
  | cons item rest ih =>
    simp only [processItems]
    split
    · intro u hu
      rcases ih seen u hu with h | ⟨it, hit, heq, hne⟩
      · exact Or.inl h
      · exact Or.inr ⟨it, List.mem_cons_of_mem _ hit, heq, hne⟩
    · rename_i hif
      push_neg at hif
      intro u hu
      rcases ih (itemUrl item :: seen) u hu with h | ⟨it, hit, heq, hne⟩
      · rcases List.mem_cons.mp h with rfl | hmem
        · exact Or.inr ⟨item, List.mem_cons_self _ _, rfl, hif.1⟩
        · exact Or.inl hmem
      · exact Or.inr ⟨it, List.mem_cons_of_mem _ hit, heq, hne⟩

theorem runQueries_seen_mono (searcher : Searcher) (qs : List RawQuery)
    (acc : List (String × QEntry)) (seen : List String) (u : String)
    (h : u ∈ seen) : u ∈ (runQueries searcher qs acc seen).2 := by
  induction qs generalizing acc seen with
  | nil => simpa [runQueries] using h
  | cons q rest ih =>
    simp only [runQueries]
    by_cases hc : clean_query q = ""
    · simp only [hc, if_true]
      exact ih acc seen h
    · simp only [hc, if_false]
      rcases hs : searcher (clean_query q) with e | raw
      · exact ih _ seen h
      · exact ih _ _ (processItems_seen_mono (raw.getD []) seen u h)

theorem runCalls_seen_mono (searcher : Searcher) (tcs : List ToolCall)
    (seen : List String) (u : String) (h : u ∈ seen) :
    u ∈ (runCalls searcher tcs seen).2 := by
  induction tcs generalizing seen with
  | nil => simpa [runCalls] using h
  | cons tc rest ih =>
    simp only [runCalls]
    split
    · exact ih _ (runQueries_seen_mono searcher _ [] seen u h)
    · exact ih seen h

theorem execute_tools_seen_mono (searcher : Searcher) (state : List Msg)
    (seen : List String) (u : String) (h : u ∈ seen) :
    u ∈ (execute_tools searcher state seen).2 := by
  unfold execute_tools
  split
  · exact h
  · split
    · exact h
    · exact runCalls_seen_mono searcher _ seen u h
  · exact h

end ExecuteTools

/-! ## Observation helpers and fixtures for the search executor claims -/

/-- URLs contained in one ToolResult entry (error records return none). -/
def entryUrls : QEntry → List String
  | QEntry.results items => items.map (fun r => r.url)
  | QEntry.failure _ => []

/-- URLs a single message hands back to the caller. -/
def msgUrls : Msg → List String
  | Msg.tool (some m) _ => m.foldr (fun p acc => entryUrls p.2 ++ acc) []
  | _ => []

/-- All URLs returned to the caller by a list of emitted messages. -/
def returnedUrls (msgs : List Msg) : List String :=
  msgs.foldr (fun m acc => msgUrls m ++ acc) []

/-- `repr(TimeoutError(CHR39 x CHR39))`, built character-wise to keep quote
characters out of string literals. -/
def timeoutRepr : String :=
  "TimeoutError(" ++ String.mk [Char.ofNat 39, 'x', Char.ofNat 39] ++ ")"

/-- A collaborator that times out on the query `"q"` and succeeds with no
results elsewhere. -/
def searcherC6 : ExecuteTools.Searcher :=
  fun s => if s = "q" then Except.error timeoutRepr else Except.ok (some [])

/-! ## Claims C6–C8: the search executor -/

/-- Claim C6. Every query of a batch whose normalization is non-empty gets
an entry in the output mapping, and a query on which the collaborator raised
gets the error record carrying the failure's description; the embedding is a
total function, so the batch itself never raises. -/
theorem c6_failed_query_error_record
    (searcher : ExecuteTools.Searcher) (qs : List RawQuery) (seen : List String)
    (q : RawQuery) (hq : q ∈ qs) (hne : ExecuteTools.clean_query q ≠ "") :
    (ExecuteTools.findVal (ExecuteTools.clean_query q)
      (ExecuteTools.runQueries searcher qs [] seen).1).isSome = true ∧
    ∀ e, searcher (ExecuteTools.clean_query q) = Except.error e →
      ExecuteTools.findVal (ExecuteTools.clean_query q)
        (ExecuteTools.runQueries searcher qs [] seen).1 = some (QEntry.failure e) := by
  refine ⟨ExecuteTools.runQueries_key_present searcher qs [] seen q hq hne, ?_⟩
  intro e he
  rcases ExecuteTools.runQueries_err_stable searcher he qs [] seen with h | h
  · exfalso
    have hp := ExecuteTools.runQueries_key_present searcher qs [] seen q hq hne
    rw [h] at hp
    simp [ExecuteTools.findVal] at hp
  · exact h

/-- Witness for C6: the batch `["q", "r"]` against a collaborator that
raises `TimeoutError` on `"q"`: the mapping holds the error record for `"q"`
and still an entry for `"r"`. -/
theorem c6_failed_query_error_record_witness :
    ExecuteTools.findVal "q"
      (ExecuteTools.runQueries searcherC6 [RawQuery.str "q", RawQuery.str "r"] [] []).1 =
      some (QEntry.failure timeoutRepr) ∧
    (ExecuteTools.findVal "r"
      (ExecuteTools.runQueries searcherC6 [RawQuery.str "q", RawQuery.str "r"] [] []).1).isSome
      = true := by
  constructor
  · have hcq : ExecuteTools.clean_query (RawQuery.str "q") = "q" := rfl
    have h := (c6_failed_query_error_record searcherC6 [RawQuery.str "q", RawQuery.str "r"] []
      (RawQuery.str "q") (by decide) (by rw [hcq]; decide)).2 timeoutRepr (by rw [hcq]; rfl)
    rw [hcq] at h
    exact h
  · have hcr : ExecuteTools.clean_query (RawQuery.str "r") = "r" := rfl
    have h := (c6_failed_query_error_record searcherC6 [RawQuery.str "q", RawQuery.str "r"] []
      (RawQuery.str "r") (by decide) (by rw [hcr]; decide)).1
    rw [hcr] at h
    exact h

/-- Claim C7. The kept records of one search contain only URLs that were
absent from the seen set at the time of that search (so a URL accepted
once is filtered out on every later occurrence) and non-empty; the emitted
list preserves collaborator order as a sublist of the projected raw items;
the emitted `[:3]` truncation has at most 3 records; and every kept URL is
registered in the updated seen set. -/
theorem c7_dedup_truncate_project (seen : List String) (raw : List SearchItem) :
    (∀ r ∈ (ExecuteTools.processItems seen raw).1, r.url ∉ seen ∧ r.url ≠ "") ∧
    ((ExecuteTools.processItems seen raw).1.take 3).Sublist (raw.map ExecuteTools.projOf) ∧
    ((ExecuteTools.processItems seen raw).1.take 3).length ≤ 3 ∧
    (∀ r ∈ (ExecuteTools.processItems seen raw).1,
      r.url ∈ (ExecuteTools.processItems seen raw).2) := by
  refine ⟨ExecuteTools.processItems_kept_fresh raw seen, ?_, ?_,
    ExecuteTools.processItems_url_registered raw seen⟩
  · exact (List.take_sublist 3 _).trans (ExecuteTools.processItems_sublist raw seen)
  · exact List.length_take_le 3 _

/-- A raw item carrying a fresh URL (with a `content` field). -/
def itemA : SearchItem :=
  { title := some "A", url := some "https://a.example/1", content := some "ca", snippet := none }

/-- A raw item repeating `itemA`'s URL: accepted the first time, filtered
the second. -/
def itemB : SearchItem :=
  { title := some "B", url := some "https://a.example/1", content := none, snippet := some "sb" }

/-- A raw item whose URL was already seen before this search. -/
def itemC : SearchItem :=
  { title := some "C", url := some "https://seen.example/0", content := none, snippet := none }

/-- The seen set at the time of the witness search. -/
def seenW : List String := ["https://seen.example/0"]

/-- The collaborator's raw result list for the witness search. -/
def rawW : List SearchItem := [itemA, itemB, itemC]

/-- Witness for C7: `itemA` is kept, its URL was fresh and is registered. -/
theorem c7_dedup_truncate_project_witness :
    ExecuteTools.projOf itemA ∈ (ExecuteTools.processItems seenW rawW).1 ∧
    (ExecuteTools.projOf itemA).url ∉ seenW ∧
    (ExecuteTools.projOf itemA).url ∈ (ExecuteTools.processItems seenW rawW).2 := by
  refine ⟨by decide, ?_, ?_⟩
  · exact ((c7_dedup_truncate_project seenW rawW).1 _ (by decide)).1
  · exact (c7_dedup_truncate_project seenW rawW).2.2.2 _ (by decide)

/-- Builds a raw item with only a URL. -/
def mkItem (u : String) : SearchItem :=
  { title := none, url := some u, content := none, snippet := none }

/-- Four fresh URLs: one more than the per-query truncation cap. -/
def rawC8 : List SearchItem :=
  [mkItem "https://e.example/1", mkItem "https://e.example/2",
   mkItem "https://e.example/3", mkItem "https://e.example/4"]

/-- A collaborator answering every query with the four-item list. -/
def searcherC8 : ExecuteTools.Searcher := fun _ => Except.ok (some rawC8)

/-- A draft call with the single search query `"q"`. -/
def tcC8 : ToolCall :=
  { name := "AnswerQuestion", id := some "call0", answer := none,
    references := none, search_queries := some [RawQuery.str "q"] }

/-- A history ending in the model message carrying `tcC8`. -/
def stC8 : List Msg := [Msg.ai [tcC8]]

/-- Claim C8 counterexample: with four fresh URLs for one query, the fourth
URL is registered in the seen set (`SEEN_URLS.add` runs before the `[:3]`
truncation) yet is never part of any result list returned to the caller —
so the Evidence Set can contain URLs that were never returned. -/
theorem c8_seen_url_never_returned_cex :
    "https://e.example/4" ∈ (ExecuteTools.execute_tools searcherC8 stC8 []).2 ∧
    "https://e.example/4" ∉ returnedUrls (ExecuteTools.execute_tools searcherC8 stC8 []).1 := by
  decide

/-- Claim C8 as amended: the seen set grows monotonically within a session
(no step of the executor removes a URL; it shrinks only on the explicit
`SEEN_URLS.clear()` reset), and every URL it ever contains either was
already present or is the non-empty cleaned URL of a collaborator result
item that was processed — but not necessarily returned to the caller. -/
theorem c8_seen_set_monotone_provenance :
    (∀ (searcher : ExecuteTools.Searcher) (state : List Msg) (seen : List String),
      ∀ u ∈ seen, u ∈ (ExecuteTools.execute_tools searcher state seen).2) ∧
    (∀ (seen : List String) (raw : List SearchItem),
      ∀ u ∈ (ExecuteTools.processItems seen raw).2,
        u ∈ seen ∨ ∃ item, item ∈ raw ∧ ExecuteTools.itemUrl item = u ∧ u ≠ "") :=
  ⟨fun searcher state seen u h => ExecuteTools.execute_tools_seen_mono searcher state seen u h,
   fun seen raw => ExecuteTools.processItems_provenance raw seen⟩

/-- Witness for the amended C8 at concrete values. -/
theorem c8_seen_set_monotone_provenance_witness :
    "https://seen.example/0" ∈
      (ExecuteTools.execute_tools searcherC8 stC8 ["https://seen.example/0"]).2 ∧
    ("https://e.example/1" ∈ (["https://x.example/9"] : List String) ∨
      ∃ item, item ∈ rawC8 ∧ ExecuteTools.itemUrl item = "https://e.example/1" ∧
        ("https://e.example/1" : String) ≠ "") := by
  constructor
  · exact c8_seen_set_monotone_provenance.1 searcherC8 stC8 ["https://seen.example/0"] _ (by decide)
  · exact c8_seen_set_monotone_provenance.2 ["https://x.example/9"] rawC8 _ (by decide)

/-! ## Claims C9–C10: empty answers and query normalization -/

/-- Claim C9 counterexample: with a recorded best of 50 (only reachable
after an earlier answer was scored) and the latest extracted answer equal to
the empty string, the controller CONTINUES — the claim's required STOP
transition does not happen, because `if ans:` treats `""` like an absent
answer and skips scoring entirely. -/
theorem c9_empty_answer_continues_cex :
    countToolMsgs stEmptyAns ≤ 2 ∧
    extract_last_tool_answer stEmptyAns = (some "", ["r1"]) ∧
    event_loop 2 50 stEmptyAns = (Decision.toTools, 50) ∧
    Decision.toTools ≠ Decision.stop := by
  decide

/-- Claim C9 as amended: whenever the hard cap is not exceeded and the
latest extracted answer is the empty string — or no answer exists at all —
the controller transitions to CONTINUE with the best score unchanged,
regardless of whether an earlier answer has been scored: the truthiness
guard `if ans:` short-circuits on `""` exactly as on `None`. -/
theorem c9_empty_answer_always_continues
    (max_iterations : Nat) (best : ℚ) (state : List Msg)
    (hcap : countToolMsgs state ≤ max_iterations)
    (hfalsy : (extract_last_tool_answer state).1 = some "" ∨
              (extract_last_tool_answer state).1 = none) :
    event_loop max_iterations best state = (Decision.toTools, best) :=
  event_loop_unscored max_iterations best state hcap hfalsy

/-- Witness for the amended C9: an empty answer after a recorded best of 50
continues, and so does an empty history with no answer at all. -/
theorem c9_empty_answer_always_continues_witness :
    event_loop 2 50 stEmptyAns = (Decision.toTools, 50) ∧
    event_loop 3 (-7) [] = (Decision.toTools, -7) := by
  constructor
  · exact c9_empty_answer_always_continues 2 50 stEmptyAns (by decide) (Or.inl (by decide))
  · exact c9_empty_answer_always_continues 3 (-7) [] (by decide) (Or.inr (by decide))

/-- The double-quote character as a one-character string. -/
def dq : String := String.mk [Char.ofNat 34]

/-- The claim's scenario input: a space, then `"ai trends"` in double
quotes, then a comma and two spaces. -/
def aiTrendsRaw : String := " " ++ dq ++ "ai trends" ++ dq ++ ",  "

/-- Modelled from the claim's wording, for the refutation of C10 only:
coerce to text, strip surrounding whitespace, then strip TRAILING commas
only, then strip surrounding single/double quotes. This is the
normalization the claim describes, to be compared with `clean_query`. -/
def claimNormalize (s : String) : String :=
  pyStrip (fun c => c == Char.ofNat 34 || c == Char.ofNat 39)
    (String.mk ((pyStrip Char.isWhitespace s).toList.reverse.dropWhile
      (fun c => c == ',')).reverse)

/-- Claim C10 counterexample: on the raw query `",q"` the code's
`_clean_query` strips the LEADING comma as well (Python `strip(",")` strips
both ends), yielding `"q"`, while the claim's trailing-commas-only
normalization yields `",q"`. -/
theorem c10_leading_comma_cex :
    ExecuteTools.clean_query (RawQuery.str ",q") = "q" ∧
    claimNormalize ",q" = ",q" ∧
    ("q" : String) ≠ ",q" := by
  decide

/-- Claim C10 as amended: normalization coerces to text, strips surrounding
whitespace, then strips commas from BOTH ends, then strips surrounding
double quotes and then surrounding single quotes; queries that are empty
after normalization are skipped, so the key `""` never appears in the
output mapping; and the claim's scenario still holds:
`' "ai trends",  '` normalizes to exactly `ai trends`. -/
theorem c10_normalization_amended :
    ExecuteTools.clean_query (RawQuery.str aiTrendsRaw) = "ai trends" ∧
    ExecuteTools.clean_query (RawQuery.str ",,q,,") = "q" ∧
    (∀ (searcher : ExecuteTools.Searcher) (qs : List RawQuery)
      (acc : List (String × QEntry)) (seen : List String),
      ExecuteTools.findVal "" acc = none →
      ExecuteTools.findVal "" (ExecuteTools.runQueries searcher qs acc seen).1 = none) := by
  refine ⟨by decide, by decide, ?_⟩
  intro searcher qs
  induction qs with
  | nil =>
    intro acc seen h
    simpa [ExecuteTools.runQueries] using h
  | cons p rest ih =>
    intro acc seen h
    simp only [ExecuteTools.runQueries]
    by_cases hc : ExecuteTools.clean_query p = ""
    · simp only [hc, if_true]
      exact ih acc seen h
    · simp only [hc, if_false]
      rcases hs : searcher (ExecuteTools.clean_query p) with e | raw
      · exact ih _ seen (by rw [ExecuteTools.findVal_updAssoc_ne _ _ hc, h])
      · exact ih _ _ (by rw [ExecuteTools.findVal_updAssoc_ne _ _ hc, h])

/-- A collaborator that always succeeds with a `None` raw value. -/
def searcherNoop : ExecuteTools.Searcher := fun _ => Except.ok none

/-- Witness for the amended C10: a batch containing an
empty-after-normalization query produces no entry under the key `""`. -/
theorem c10_normalization_amended_witness :
    ExecuteTools.findVal ""
      (ExecuteTools.runQueries searcherNoop [RawQuery.str "  ,  ", RawQuery.str "x"] [] []).1 =
      none :=
  c10_normalization_amended.2.2 searcherNoop [RawQuery.str "  ,  ", RawQuery.str "x"] [] []
    (by decide)
